import Mathlib

/-!
Verification of the authentication, authorization, rate-limiting and
instrumentation layer of the MERN reference application.

The JavaScript sources embedded here:
- `server/src/utils/auth.js` (generateToken, verifyToken, extractToken)
- `server/src/middleware/auth.js` (authenticate, requireRole, rateLimit)
- `server/src/utils/performance.js` (PerformanceMonitor.startTiming / endTiming)

Conventions of the embedding:
- JavaScript strings are Lean `String`s; the string primitives used by the
  source (`startsWith`, `substring`, `trim`) are re-implemented over the
  character list `String.data` so that every definition evaluates inside the
  kernel. JavaScript `trim` removes Unicode whitespace; the model restricts
  to the ASCII whitespace characters, which covers every literal appearing
  in the sources and tests.
- `Date.now()` / `process.hrtime.bigint()` instants are `Int` values passed
  explicitly; object mutation becomes explicit state passing.
- A JavaScript `Map` is an association list with unique keys, in insertion
  order: `Map.get` is `lookupEntry`, `Map.set` is `setEntry` (update in
  place if present, append otherwise), `Map.delete` is `eraseEntry`.
- Express middleware outcomes become inductive results: calling `next()` is
  one constructor, `res.status(s).json({error: b})` is a `response s b`
  constructor.
-/

/-- Whitespace test for the model of the JavaScript string `trim`
(restricted to ASCII whitespace). -/
def isJsWhitespace (c : Char) : Bool :=
  c = ' ' || c = '\t' || c = '\n' || c = '\r' || c = '\x0b' || c = '\x0c'

/-- Model of the JavaScript `s.startsWith(p)` over character lists. -/
def jsStartsWith (s p : String) : Bool :=
  p.data.isPrefixOf s.data

/-- Model of the JavaScript `s.substring(n)` (drop the first `n` characters). -/
def jsSubstring (s : String) (n : Nat) : String :=
  ⟨s.data.drop n⟩

/-- Model of the JavaScript `s.trim()`: drop whitespace at both ends. -/
def jsTrim (s : String) : String :=
  ⟨((s.data.dropWhile isJsWhitespace).reverse.dropWhile isJsWhitespace).reverse⟩

/-- Decoded JWT payload as produced by `jwt.sign` in `generateToken`:
the signed object `{userId, username}` plus the `iat`/`exp` timestamps
(seconds) that the library adds. -/
structure JwtPayload where
  userId : String
  username : String
  iat : Int
  exp : Int
deriving DecidableEq, Repr

/-- A token value as seen by `jwt.verify`: either a structurally well-formed
signed token (payload plus the secret the producer signed with), or a
malformed string that does not parse as a JWT at all. -/
inductive JwtToken where
  | signed (payload : JwtPayload) (sig : String)
  | malformed
deriving DecidableEq, Repr

/-- Failure modes of `jwt.verify`, distinguished inside the library but
collapsed by `verifyToken`. -/
inductive JwtError where
  | invalidSignature
  | malformedToken
  | expired
deriving DecidableEq, Repr

/-- Modelled from the spec: the external `jsonwebtoken` collaborator's
`jwt.sign(payload, secret, {expiresIn})` (the library is a dependency, not
part of `src/`). Issuance stamps `iat = now` and `exp = now + expiresIn`
and binds the payload to the signing secret. -/
def jwtSign (userId username : String) (secret : String) (expiresInSeconds : Int)
    (now : Int) : JwtToken :=
  JwtToken.signed ⟨userId, username, now, now + expiresInSeconds⟩ secret

/-- Modelled from the spec: the external `jsonwebtoken` collaborator's
`jwt.verify(token, secret)`. A malformed token fails; a signature made with
a different secret fails; an expired token (`now >= exp`) fails; otherwise
the decoded payload is returned. Signature is checked before expiry. -/
def jwtVerify (tok : JwtToken) (secret : String) (now : Int) :
    Except JwtError JwtPayload :=
  match tok with
  | JwtToken.malformed => Except.error JwtError.malformedToken
  | JwtToken.signed payload sig =>
    if sig ≠ secret then Except.error JwtError.invalidSignature
    else if payload.exp ≤ now then Except.error JwtError.expired
    else Except.ok payload

/-- Process-wide signing secret: `process.env.JWT_SECRET || 'default-secret-key'`,
one fixed value for both issuance and verification. -/
def jwtSecret : String := "default-secret-key"

/-- The `expiresIn: '7d'` lifetime of `generateToken`, in seconds. -/
def sevenDaysInSeconds : Int := 7 * 24 * 60 * 60

/-- User record as consumed by `generateToken` (`user._id`, `user.username`). -/
structure UserRec where
  _id : String
  username : String
deriving DecidableEq, Repr

/-- From `server/src/utils/auth.js`: `generateToken(user)` signs
`{userId: user._id, username: user.username}` with the process secret and
a 7-day lifetime. The issuance instant `now` is explicit. -/
def generateToken (user : UserRec) (now : Int) : JwtToken :=
  jwtSign user._id user.username jwtSecret sevenDaysInSeconds now

/-- From `server/src/utils/auth.js`: `verifyToken(token)` delegates to
`jwt.verify` and collapses every library error into the single
`Error('Invalid token')`. -/
def verifyToken (tok : JwtToken) (now : Int) : Except String JwtPayload :=
  match jwtVerify tok jwtSecret now with
  | Except.ok payload => Except.ok payload
  | Except.error _ => Except.error "Invalid token"

/-- From `server/src/utils/auth.js`: `extractToken(authHeader)`. A missing
(`none`) or empty header, or one not starting with the case-sensitive
`"Bearer "`, yields `null`; otherwise the remainder after the 7-character
prefix, trimmed. Note the trimmed remainder may be the empty string. -/
def extractToken (authHeader : Option String) : Option String :=
  match authHeader with
  | none => none
  | some s =>
    if s = "" ∨ ¬ jsStartsWith s "Bearer " then none
    else some (jsTrim (jsSubstring s 7))

/-- Outcome of the `authenticate` middleware: either an error response or
`next()` with `req.user` set to the decoded payload. -/
inductive AuthResult where
  | response (status : Nat) (body : String)
  | proceed (user : JwtPayload)
deriving DecidableEq, Repr

/-- From `server/src/middleware/auth.js`: `authenticate(req, res, next)`.
The verifier argument abstracts `verifyToken` applied to the raw token
string (an `Except.error` models the thrown `Error` caught by the
middleware). The JavaScript guard `if (!token)` treats both `null` and the
empty string as missing, yielding 401 "Access token required"; a verifier
failure yields 401 "Invalid or expired token". -/
def authenticate (verify : String → Except String JwtPayload)
    (authHeader : Option String) : AuthResult :=
  match extractToken authHeader with
  | none => AuthResult.response 401 "Access token required"
  | some token =>
    if token = "" then AuthResult.response 401 "Access token required"
    else
      match verify token with
      | Except.ok decoded => AuthResult.proceed decoded
      | Except.error _ => AuthResult.response 401 "Invalid or expired token"

/-- The `req.user` object consulted by `requireRole`: a user id plus an
optional `role` attribute. `role = some ""` models a present but
empty-string attribute, which JavaScript truthiness conflates with an
absent one. -/
structure AuthUser where
  userId : String
  role : Option String
deriving DecidableEq, Repr

/-- Generic middleware outcome: `next()` or an error response. -/
inductive MwResult where
  | next
  | response (status : Nat) (body : String)
deriving DecidableEq, Repr

/-- From `server/src/middleware/auth.js`: `requireRole(role)` middleware.
The guard `if (!req.user || !req.user.role)` fires when `req.user` is
absent, or its `role` is absent or the (falsy) empty string, yielding 403
"Role information not found"; then `if (req.user.role !== role)` yields
403 "Insufficient permissions"; otherwise `next()`. -/
def requireRole (role : String) (user : Option AuthUser) : MwResult :=
  match user with
  | none => MwResult.response 403 "Role information not found"
  | some u =>
    match u.role with
    | none => MwResult.response 403 "Role information not found"
    | some r =>
      if r = "" then MwResult.response 403 "Role information not found"
      else if r ≠ role then MwResult.response 403 "Insufficient permissions"
      else MwResult.next

/-- Association-list model of a JavaScript `Map`'s `get`. -/
def lookupEntry {β : Type} : List (String × β) → String → Option β
  | [], _ => none
  | e :: rest, k => if e.1 = k then some e.2 else lookupEntry rest k

/-- Association-list model of a JavaScript `Map`'s `set`: replace in place
when the key is present (keeping its position), append otherwise. -/
def setEntry {β : Type} : List (String × β) → String → β → List (String × β)
  | [], k, v => [(k, v)]
  | e :: rest, k, v => if e.1 = k then (k, v) :: rest else e :: setEntry rest k v

/-- Association-list model of a JavaScript `Map`'s `delete`. A `Map` cannot
hold a duplicate key, so removing every entry with the key is exact on all
states that are images of a `Map`. -/
def eraseEntry {β : Type} (st : List (String × β)) (k : String) :
    List (String × β) :=
  st.filter (fun e => decide (e.1 ≠ k))

/-- State of `PerformanceMonitor.metrics`: operation id to start instant
(`process.hrtime.bigint()` nanoseconds; only the instant matters, the
`operationId` field stored alongside it is the key itself). -/
abbrev PerfState := List (String × Int)

/-- From `server/src/utils/performance.js`: `startTiming(operationId)`
records the start instant for the id, overwriting a previous one. -/
def startTiming (st : PerfState) (operationId : String) (now : Int) : PerfState :=
  setEntry st operationId now

/-- From `server/src/utils/performance.js`: `endTiming(operationId)`. With
no recorded start it logs a warning and returns `undefined` (`none`) with
the registry untouched; otherwise it returns the elapsed time and deletes
the entry. The source scales nanoseconds to milliseconds by dividing by
1e6, which preserves sign and absence; the model returns the undivided
difference. -/
def endTiming (st : PerfState) (operationId : String) (now : Int) :
    Option Int × PerfState :=
  match lookupEntry st operationId with
  | none => (none, st)
  | some startTime => (some (now - startTime), eraseEntry st operationId)

/-- Outcome of one `rateLimit` middleware invocation: `next()` or an error
response. -/
inductive RLOutcome where
  | allowed
  | denied (status : Nat) (body : String)
deriving DecidableEq, Repr

/-- State of the `requests` map of one `rateLimit` middleware instance:
client key (`req.ip`) to the recorded request timestamps. -/
abbrev RLState := List (String × List Int)

/-- The source's `timestamps.filter(timestamp => timestamp > windowStart)`. -/
def filterGt (windowStart : Int) (timestamps : List Int) : List Int :=
  timestamps.filter (fun timestamp => decide (windowStart < timestamp))

/-- The `// Clean old entries` loop of `rateLimit`: for every key, keep only
timestamps newer than `windowStart` and delete the key if none remain. -/
def cleanupState (windowStart : Int) (st : RLState) : RLState :=
  st.filterMap (fun e =>
    let kept := filterGt windowStart e.2
    if kept = [] then none else some (e.1, kept))

/-- From `server/src/middleware/auth.js`: one invocation of the middleware
returned by `rateLimit(maxRequests, windowMs)`, for client key `key` at
instant `now` (`Date.now()`), on registry state `st`. It first runs the
cleanup loop over every key, then denies with 429 "Too many requests" when
the key's remaining count has reached `maxRequests`, else appends `now`
to the key's list and calls `next()`. -/
def rateLimit (maxRequests : Nat) (windowMs : Int) (key : String) (now : Int)
    (st : RLState) : RLOutcome × RLState :=
  let windowStart := now - windowMs
  let cleaned := cleanupState windowStart st
  let userRequests := (lookupEntry cleaned key).getD []
  if maxRequests ≤ userRequests.length then
    (RLOutcome.denied 429 "Too many requests", cleaned)
  else
    (RLOutcome.allowed, setEntry cleaned key (userRequests ++ [now]))

/-- Run a sequence of `rateLimit` invocations (each a key paired with its
`Date.now()` instant), returning each check annotated with its outcome,
plus the final registry state. -/
def runRateLimit (maxRequests : Nat) (windowMs : Int) :
    List (String × Int) → RLState → List ((String × Int) × RLOutcome) × RLState
  | [], st => ([], st)
  | c :: rest, st =>
    let r := rateLimit maxRequests windowMs c.1 c.2 st
    let rr := runRateLimit maxRequests windowMs rest r.2
    ((c, r.1) :: rr.1, rr.2)

/-- Outcomes of the checks made for key `k` within a trace run from the
fresh (empty) registry of one middleware instance. -/
def rlOutcomesFor (maxRequests : Nat) (windowMs : Int) (k : String)
    (trace : List (String × Int)) : List RLOutcome :=
  ((runRateLimit maxRequests windowMs trace []).1.filter
    (fun x => decide (x.1.1 = k))).map (fun x => x.2)

/-- Keys of an association-list state. -/
def entryKeys {β : Type} (st : List (String × β)) : List String :=
  st.map Prod.fst

/-- A state representable as a JavaScript `Map`: no duplicate keys. -/
def keysNodup {β : Type} (st : List (String × β)) : Prop :=
  (entryKeys st).Nodup

/-- Timestamps currently held for a key, the `requests.get(key) || []` view. -/
def tsOf (st : RLState) (k : String) : List Int :=
  (lookupEntry st k).getD []

/-- Registry holding exactly one key's timestamps, with the empty list
represented by key removal (as the cleanup loop maintains). -/
def singleState (k : String) (ts : List Int) : RLState :=
  if ts = [] then [] else [(k, ts)]

theorem jsStartsWith_bearer_ne_empty {s : String}
    (h : jsStartsWith s "Bearer " = true) : s ≠ "" := by
  intro he
  subst he
  exact absurd h (by decide)

theorem lookupEntry_setEntry_self {β : Type} (st : List (String × β))
    (k : String) (v : β) : lookupEntry (setEntry st k v) k = some v := by
  induction st with
  | nil => simp [setEntry, lookupEntry]
  | cons e rest ih =>
    by_cases h : e.1 = k
    · simp [setEntry, h, lookupEntry]
    · simp [setEntry, h, lookupEntry, ih]

theorem lookupEntry_eraseEntry_self {β : Type} (st : List (String × β))
    (k : String) : lookupEntry (eraseEntry st k) k = none := by
  induction st with
  | nil => rfl
  | cons e rest ih =>
    by_cases h : e.1 = k
    · simpa [eraseEntry, List.filter_cons, h] using ih
    · simpa [eraseEntry, List.filter_cons, h, lookupEntry] using ih

/-- C2: for every subject and issuance time, verifying the issued token
(before it expires) succeeds, with `userId` equal to the subject's id,
`iat` equal to the issuance time, and `exp` exactly the default seven-day
lifetime after `iat`. -/
theorem verify_of_generateToken (u : UserRec) (t now : Int)
    (h : now < t + sevenDaysInSeconds) :
    verifyToken (generateToken u t) now =
      Except.ok ⟨u._id, u.username, t, t + sevenDaysInSeconds⟩ := by
  have hlt : ¬ (t + sevenDaysInSeconds ≤ now) := not_le.mpr h
  simp [verifyToken, generateToken, jwtSign, jwtVerify, hlt]

/-- Witness for C2 at a concrete subject and clock. -/
theorem verify_of_generateToken_witness :
    verifyToken (generateToken ⟨"123", "testuser"⟩ 0) 1 =
      Except.ok ⟨"123", "testuser", 0, 0 + sevenDaysInSeconds⟩ :=
  verify_of_generateToken ⟨"123", "testuser"⟩ 0 1 (by decide)

/-- C3: `verifyToken` fails on a malformed token, on a wrong-secret
signature, and on an expired token (`now >= exp`), and the failure value is
the same `Error('Invalid token')` in all three cases. -/
theorem verifyToken_uniform_invalid :
    (∀ now : Int,
      verifyToken JwtToken.malformed now = Except.error "Invalid token") ∧
    (∀ (p : JwtPayload) (sig : String) (now : Int), sig ≠ jwtSecret →
      verifyToken (JwtToken.signed p sig) now = Except.error "Invalid token") ∧
    (∀ (p : JwtPayload) (sig : String) (now : Int), p.exp ≤ now →
      verifyToken (JwtToken.signed p sig) now = Except.error "Invalid token") := by
  refine ⟨fun now => rfl, fun p sig now h => ?_, fun p sig now h => ?_⟩
  · simp [verifyToken, jwtVerify, h]
  · by_cases hs : sig = jwtSecret
    · simp [verifyToken, jwtVerify, hs, h]
    · simp [verifyToken, jwtVerify, hs]

/-- Witness for C3: each of the three failure shapes at concrete inputs. -/
theorem verifyToken_uniform_invalid_witness :
    verifyToken JwtToken.malformed 0 = Except.error "Invalid token" ∧
    verifyToken (JwtToken.signed ⟨"u1", "alice", 0, 604800⟩ "wrong-secret") 0 =
      Except.error "Invalid token" ∧
    verifyToken (JwtToken.signed ⟨"u1", "alice", 0, 5⟩ jwtSecret) 5 =
      Except.error "Invalid token" :=
  ⟨verifyToken_uniform_invalid.1 0,
   verifyToken_uniform_invalid.2.1 ⟨"u1", "alice", 0, 604800⟩ "wrong-secret" 0
     (by decide),
   verifyToken_uniform_invalid.2.2 ⟨"u1", "alice", 0, 5⟩ jwtSecret 5 (by decide)⟩

/-- C4 counterexample: a header of `"Bearer "` followed only by whitespace
does not yield absent (`none`) as claimed; `extractToken` returns the empty
string. -/
theorem extractToken_whitespace_counterexample :
    extractToken (some "Bearer    ") ≠ none ∧
    extractToken (some "Bearer    ") = some "" := by decide

/-- C4 amended: `extractToken` returns the trimmed remainder after the
case-sensitive `"Bearer "` exactly when the header starts with that
prefix, and `none` otherwise; the specified examples hold, except that a
`"Bearer "` prefix followed only by whitespace yields the empty string
(treated as absent by the caller), not `none`. -/
theorem extractToken_amended :
    (∀ s : String, jsStartsWith s "Bearer " = false →
      extractToken (some s) = none) ∧
    (∀ s : String, jsStartsWith s "Bearer " = true →
      extractToken (some s) = some (jsTrim (jsSubstring s 7))) ∧
    extractToken none = none ∧
    extractToken (some "Bearer abc123") = some "abc123" ∧
    extractToken (some "Bearer   padded   ") = some "padded" ∧
    extractToken (some "") = none ∧
    extractToken (some "Basic xyz") = none ∧
    extractToken (some "Bearer") = none ∧
    extractToken (some "Bearer    ") = some "" := by
  refine ⟨fun s h => ?_, fun s h => ?_, by decide, by decide, by decide,
    by decide, by decide, by decide, by decide⟩
  · simp [extractToken, h]
  · have hne : s ≠ "" := jsStartsWith_bearer_ne_empty h
    simp [extractToken, hne, h]

/-- Witness for C4 amended at concrete headers. -/
theorem extractToken_amended_witness :
    extractToken (some "Basic abc") = none ∧
    extractToken (some "Bearer tok") = some (jsTrim (jsSubstring "Bearer tok" 7)) :=
  ⟨extractToken_amended.1 "Basic abc" (by decide),
   extractToken_amended.2.1 "Bearer tok" (by decide)⟩

/-- C8 counterexample: a present but empty-string role is reported as
"Role information not found", not as "Insufficient permissions" as the
claim requires for a present-but-wrong role. -/
theorem requireRole_empty_role_counterexample :
    requireRole "admin" (some ⟨"1", some ""⟩) =
      MwResult.response 403 "Role information not found" ∧
    requireRole "admin" (some ⟨"1", some ""⟩) ≠
      MwResult.response 403 "Insufficient permissions" := by decide

/-- C8 amended: `requireRole` denies with "Role information not found" when
the claim carries no role or a (falsy) empty-string role; denies with
"Insufficient permissions" when a non-empty role differs from the required
one; and calls `next()` exactly when a non-empty role equals the required
one. -/
theorem requireRole_amended (required : String) (u : AuthUser) :
    ((u.role = none ∨ u.role = some "") →
      requireRole required (some u) =
        MwResult.response 403 "Role information not found") ∧
    (∀ r : String, u.role = some r → r ≠ "" → r ≠ required →
      requireRole required (some u) =
        MwResult.response 403 "Insufficient permissions") ∧
    (requireRole required (some u) = MwResult.next ↔
      u.role = some required ∧ required ≠ "") := by
  refine ⟨?_, ?_, ?_⟩
  · rintro (h | h) <;> simp [requireRole, h]
  · rintro r hr h1 h2
    simp [requireRole, hr, h1, h2]
  · rcases hu : u.role with _ | r
    · simp [requireRole, hu]
    · by_cases h0 : r = ""
      · subst h0
        simp [requireRole, hu]
        intro h
        exact h.symm
      · by_cases h1 : r = required
        · subst h1
          simp [requireRole, hu, h0]
        · simp [requireRole, hu, h0, h1]

/-- Witness for C8 amended: the three branches at concrete claims. -/
theorem requireRole_amended_witness :
    requireRole "admin" (some ⟨"1", some "user"⟩) =
      MwResult.response 403 "Insufficient permissions" ∧
    requireRole "admin" (some ⟨"1", none⟩) =
      MwResult.response 403 "Role information not found" ∧
    requireRole "admin" (some ⟨"1", some "admin"⟩) = MwResult.next :=
  ⟨(requireRole_amended "admin" ⟨"1", some "user"⟩).2.1 "user" rfl (by decide)
     (by decide),
   (requireRole_amended "admin" ⟨"1", none⟩).1 (Or.inl rfl),
   (requireRole_amended "admin" ⟨"1", some "admin"⟩).2.2.mpr ⟨rfl, by decide⟩⟩

/-- C9: stopping a running operation returns its non-negative elapsed time
and removes the entry; a second stop for the same id returns absent
without modifying the registry. -/
theorem endTiming_lifecycle (st : PerfState) (id : String) (t0 t1 t2 : Int)
    (h : t0 ≤ t1) :
    (endTiming (startTiming st id t0) id t1).1 = some (t1 - t0) ∧
    0 ≤ t1 - t0 ∧
    lookupEntry (endTiming (startTiming st id t0) id t1).2 id = none ∧
    (endTiming ((endTiming (startTiming st id t0) id t1).2) id t2).1 = none ∧
    (endTiming ((endTiming (startTiming st id t0) id t1).2) id t2).2 =
      (endTiming (startTiming st id t0) id t1).2 := by
  have h1 : lookupEntry (startTiming st id t0) id = some t0 :=
    lookupEntry_setEntry_self st id t0
  have hend : endTiming (startTiming st id t0) id t1 =
      (some (t1 - t0), eraseEntry (startTiming st id t0) id) := by
    simp [endTiming, h1]
  have h2 : lookupEntry (eraseEntry (startTiming st id t0) id) id = none :=
    lookupEntry_eraseEntry_self _ _
  refine ⟨by rw [hend], by omega, ?_, ?_, ?_⟩
  · rw [hend]
    exact h2
  · rw [hend]
    simp [endTiming, h2]
  · rw [hend]
    simp [endTiming, h2]

/-- Witness for C9 at a concrete operation and clock readings. -/
theorem endTiming_lifecycle_witness :
    (endTiming (startTiming [] "op1" 0) "op1" 5).1 = some (5 - 0) ∧
    (0 : Int) ≤ 5 - 0 ∧
    lookupEntry (endTiming (startTiming [] "op1" 0) "op1" 5).2 "op1" = none ∧
    (endTiming ((endTiming (startTiming [] "op1" 0) "op1" 5).2) "op1" 9).1 =
      none ∧
    (endTiming ((endTiming (startTiming [] "op1" 0) "op1" 5).2) "op1" 9).2 =
      (endTiming (startTiming [] "op1" 0) "op1" 5).2 :=
  endTiming_lifecycle [] "op1" 0 5 9 (by decide)

/-- C10: a header that starts with `"Bearer "` and whose remainder trims to
the empty string is answered with 401 "Access token required" (missing
credential), never with the invalid-token response, whatever the verifier
does. -/
theorem authenticate_whitespace_bearer
    (verify : String → Except String JwtPayload) (s : String)
    (h1 : jsStartsWith s "Bearer " = true)
    (h2 : jsTrim (jsSubstring s 7) = "") :
    authenticate verify (some s) =
      AuthResult.response 401 "Access token required" ∧
    authenticate verify (some s) ≠
      AuthResult.response 401 "Invalid or expired token" := by
  have hne : s ≠ "" := jsStartsWith_bearer_ne_empty h1
  have hx : extractToken (some s) = some "" := by
    simp [extractToken, hne, h1, h2]
  constructor
  · simp [authenticate, hx]
  · simp [authenticate, hx]

/-- Witness for C10 at a concrete whitespace-only bearer header. -/
theorem authenticate_whitespace_bearer_witness :
    authenticate (fun _ => Except.error "Invalid token") (some "Bearer    ") =
      AuthResult.response 401 "Access token required" ∧
    authenticate (fun _ => Except.error "Invalid token") (some "Bearer    ") ≠
      AuthResult.response 401 "Invalid or expired token" :=
  authenticate_whitespace_bearer (fun _ => Except.error "Invalid token")
    "Bearer    " (by decide) (by decide)

theorem lookupEntry_mem {β : Type} {st : List (String × β)} {k : String} {v : β}
    (h : lookupEntry st k = some v) : (k, v) ∈ st := by
  induction st with
  | nil => simp [lookupEntry] at h
  | cons e rest ih =>
    obtain ⟨k0, v0⟩ := e
    by_cases hk : k0 = k
    · subst hk
      simp [lookupEntry] at h
      subst h
      exact List.mem_cons_self _ _
    · simp [lookupEntry, hk] at h
      exact List.mem_cons_of_mem _ (ih h)

theorem mem_setEntry {β : Type} {st : List (String × β)} {k : String} {v : β}
    {e : String × β} (h : e ∈ setEntry st k v) : e ∈ st ∨ e = (k, v) := by
  induction st with
  | nil =>
    simp [setEntry] at h
    exact Or.inr h
  | cons a rest ih =>
    obtain ⟨k0, v0⟩ := a
    by_cases hk : k0 = k
    · simp [setEntry, hk] at h
      rcases h with h | h
      · exact Or.inr h
      · exact Or.inl (List.mem_cons_of_mem _ h)
    · simp [setEntry, hk] at h
      rcases h with h | h
      · exact Or.inl (by simp [h])
      · rcases ih h with h2 | h2
        · exact Or.inl (List.mem_cons_of_mem _ h2)
        · exact Or.inr h2

theorem lookupEntry_setEntry_ne {β : Type} (st : List (String × β)) {k q : String}
    (v : β) (h : q ≠ k) : lookupEntry (setEntry st k v) q = lookupEntry st q := by
  induction st with
  | nil => simp [setEntry, lookupEntry, Ne.symm h]
  | cons a rest ih =>
    obtain ⟨k0, v0⟩ := a
    by_cases hk : k0 = k
    · subst hk
      simp [setEntry, lookupEntry, Ne.symm h]
    · by_cases hq : k0 = q
      · simp [setEntry, lookupEntry, hk, hq, h]
      · simp [setEntry, lookupEntry, hk, hq, ih]

theorem lookupEntry_eq_none {β : Type} {st : List (String × β)} {k : String}
    (h : k ∉ entryKeys st) : lookupEntry st k = none := by
  induction st with
  | nil => rfl
  | cons a rest ih =>
    obtain ⟨k0, v0⟩ := a
    simp [entryKeys] at h
    simp [lookupEntry, Ne.symm h.1]
    exact ih (by simp [entryKeys, h.2])

theorem cleanupState_cons (w : Int) (a : String × List Int) (rest : RLState) :
    cleanupState w (a :: rest) =
      if filterGt w a.2 = [] then cleanupState w rest
      else (a.1, filterGt w a.2) :: cleanupState w rest := by
  by_cases h : filterGt w a.2 = [] <;>
    simp [cleanupState, List.filterMap_cons, h]

theorem setEntry_cons {β : Type} (a : String × β) (rest : List (String × β))
    (k : String) (v : β) :
    setEntry (a :: rest) k v =
      if a.1 = k then (k, v) :: rest else a :: setEntry rest k v := rfl

theorem lookupEntry_cons {β : Type} (a : String × β) (rest : List (String × β))
    (k : String) :
    lookupEntry (a :: rest) k =
      if a.1 = k then some a.2 else lookupEntry rest k := rfl

theorem entryKeys_cleanupState_subset (w : Int) (st : RLState) :
    entryKeys (cleanupState w st) ⊆ entryKeys st := by
  intro x hx
  simp only [entryKeys, List.mem_map] at hx ⊢
  obtain ⟨e, he, rfl⟩ := hx
  simp only [cleanupState, List.mem_filterMap] at he
  obtain ⟨a, ha, hfa⟩ := he
  by_cases hf : filterGt w a.2 = []
  · simp [hf] at hfa
  · simp [hf] at hfa
    subst hfa
    exact ⟨a, ha, rfl⟩

theorem keysNodup_cleanupState (w : Int) {st : RLState} (h : keysNodup st) :
    keysNodup (cleanupState w st) := by
  induction st with
  | nil => simpa [cleanupState] using h
  | cons a rest ih =>
    rw [keysNodup, entryKeys] at h
    simp only [List.map_cons, List.nodup_cons] at h
    rw [cleanupState_cons]
    by_cases hf : filterGt w a.2 = []
    · rw [if_pos hf]
      exact ih h.2
    · rw [if_neg hf]
      rw [keysNodup, entryKeys]
      simp only [List.map_cons, List.nodup_cons]
      refine ⟨?_, ih h.2⟩
      intro hmem
      exact h.1 (entryKeys_cleanupState_subset w rest hmem)

theorem mem_entryKeys_setEntry {β : Type} {st : List (String × β)} {k x : String}
    {v : β} (h : x ∈ entryKeys (setEntry st k v)) : x = k ∨ x ∈ entryKeys st := by
  induction st with
  | nil =>
    simp [setEntry, entryKeys] at h
    exact Or.inl h
  | cons a rest ih =>
    obtain ⟨k0, v0⟩ := a
    by_cases hk : k0 = k
    · simp [setEntry_cons, hk, entryKeys] at h ⊢
      tauto
    · simp [setEntry_cons, hk, entryKeys] at h ⊢
      rcases h with h | h
      · tauto
      · have h2 := ih (by simpa [entryKeys] using h)
        simp [entryKeys] at h2
        tauto

theorem keysNodup_setEntry {β : Type} {st : List (String × β)} (k : String) (v : β)
    (h : keysNodup st) : keysNodup (setEntry st k v) := by
  induction st with
  | nil => simp [setEntry, keysNodup, entryKeys]
  | cons a rest ih =>
    obtain ⟨k0, v0⟩ := a
    rw [keysNodup, entryKeys] at h
    simp only [List.map_cons, List.nodup_cons] at h
    rw [setEntry_cons]
    by_cases hk : k0 = k
    · rw [if_pos hk]
      rw [keysNodup, entryKeys]
      simp only [List.map_cons, List.nodup_cons]
      refine ⟨?_, h.2⟩
      rw [← hk]
      exact fun hm => h.1 hm
    · rw [if_neg hk]
      rw [keysNodup, entryKeys]
      simp only [List.map_cons, List.nodup_cons]
      refine ⟨?_, ?_⟩
      · intro hmem
        rcases mem_entryKeys_setEntry (by simpa [entryKeys] using hmem) with h2 | h2
        · exact hk h2
        · exact h.1 h2
      · have := ih (by simpa [keysNodup, entryKeys] using h.2)
        simpa [keysNodup, entryKeys] using this

theorem tsOf_cleanupState (w : Int) {st : RLState} (h : keysNodup st) (k : String) :
    tsOf (cleanupState w st) k = filterGt w (tsOf st k) := by
  induction st with
  | nil => rfl
  | cons a rest ih =>
    obtain ⟨k0, ts⟩ := a
    rw [keysNodup, entryKeys] at h
    simp only [List.map_cons, List.nodup_cons] at h
    rw [cleanupState_cons]
    by_cases hk : k0 = k
    · subst hk
      by_cases hf : filterGt w ts = []
      · rw [if_pos hf]
        have hnone : lookupEntry (cleanupState w rest) k0 = none :=
          lookupEntry_eq_none
            (fun hm => h.1 (by simpa [entryKeys] using
              entryKeys_cleanupState_subset w rest hm))
        simp [tsOf, lookupEntry, hnone, hf]
      · rw [if_neg hf]
        simp [tsOf, lookupEntry]
    · by_cases hf : filterGt w ts = []
      · rw [if_pos hf]
        rw [ih h.2]
        simp [tsOf, lookupEntry, hk]
      · rw [if_neg hf]
        have := ih h.2
        simp [tsOf, lookupEntry, hk] at this ⊢
        exact this

theorem filterGt_filterGt {w w' : Int} (h : w' ≤ w) (l : List Int) :
    filterGt w (filterGt w' l) = filterGt w l := by
  simp only [filterGt, List.filter_filter]
  apply List.filter_congr
  intro t _
  by_cases h1 : w < t
  · have h2 : w' < t := lt_of_le_of_lt h h1
    simp [h1, h2]
  · simp [h1]

theorem filterGt_eq_self {w : Int} {l : List Int} (h : ∀ t ∈ l, w < t) :
    filterGt w l = l :=
  List.filter_eq_self.mpr (fun t ht => by simpa using h t ht)

theorem filterGt_eq_nil {w : Int} {l : List Int} (h : ∀ t ∈ l, t ≤ w) :
    filterGt w l = [] := by
  rw [filterGt, List.filter_eq_nil_iff]
  intro t ht
  simpa using not_lt.mpr (h t ht)

theorem mem_cleanupState {w : Int} {st : RLState} {e : String × List Int}
    (h : e ∈ cleanupState w st) : e.2 ≠ [] ∧ ∀ t ∈ e.2, w < t := by
  simp only [cleanupState, List.mem_filterMap] at h
  obtain ⟨a, _, ha⟩ := h
  by_cases hf : filterGt w a.2 = []
  · simp [hf] at ha
  · simp [hf] at ha
    subst ha
    refine ⟨hf, ?_⟩
    intro t ht
    have := List.mem_filter.mp ht
    simpa using this.2

/-- C5: after any completed admission check, every entry still in the
registry is non-empty and holds only timestamps newer than `now` minus the
window. -/
theorem rateLimit_window_invariant (maxRequests : Nat) (windowMs : Int)
    (key : String) (now : Int) (st : RLState) (hW : 0 < windowMs)
    (e : String × List Int)
    (he : e ∈ (rateLimit maxRequests windowMs key now st).2) :
    e.2 ≠ [] ∧ ∀ t ∈ e.2, now - windowMs < t := by
  simp only [rateLimit] at he
  split at he
  · exact mem_cleanupState he
  · rcases mem_setEntry he with h1 | h1
    · exact mem_cleanupState h1
    · subst h1
      refine ⟨by simp, ?_⟩
      intro t ht
      rcases List.mem_append.mp ht with ht | ht
      · cases hu : lookupEntry (cleanupState (now - windowMs) st) key with
        | none => rw [hu] at ht; simp at ht
        | some v =>
          rw [hu] at ht
          simp at ht
          exact (mem_cleanupState (lookupEntry_mem hu)).2 t ht
      · simp at ht
        omega

/-- Witness for C5 at a concrete check: the surviving entry is non-empty
and its retained timestamp is inside the window. -/
theorem rateLimit_window_invariant_witness :
    (0 : Int) < 100 ∧
    ("a", [(120 : Int), 150]) ∈ (rateLimit 2 100 "a" 150 [("a", [40, 120])]).2 ∧
    ([(120 : Int), 150] ≠ ([] : List Int)) ∧
    (150 : Int) - 100 < 120 :=
  ⟨by decide, by decide,
   (rateLimit_window_invariant 2 100 "a" 150 [("a", [40, 120])] (by decide)
      ("a", [120, 150]) (by decide)).1,
   (rateLimit_window_invariant 2 100 "a" 150 [("a", [40, 120])] (by decide)
      ("a", [120, 150]) (by decide)).2 120 (by decide)⟩

/-- C6 counterexample: a denied check for key "a" still mutates the
registry, and it changes key "b"'s window (the stale entry is evicted), so
neither the per-key-only eviction nor the no-mutation-on-Denied part of the
claim holds. -/
theorem rateLimit_denied_mutates_counterexample :
    (rateLimit 1 100 "a" 150 [("a", [100]), ("b", [40])]).1 =
      RLOutcome.denied 429 "Too many requests" ∧
    (rateLimit 1 100 "a" 150 [("a", [100]), ("b", [40])]).2 ≠
      [("a", [100]), ("b", [40])] ∧
    lookupEntry (rateLimit 1 100 "a" 150 [("a", [100]), ("b", [40])]).2 "b" ≠
      lookupEntry [("a", [100]), ("b", [40])] "b" := by decide

/-- C6 amended: every admission check first runs the cleanup sweep over all
keys (not only the touched one), and a check that does not allow performs no
further mutation: its post-state is exactly the swept pre-state, with no
timestamp appended. -/
theorem rateLimit_denied_frame (maxRequests : Nat) (windowMs : Int)
    (key : String) (now : Int) (st : RLState)
    (h : (rateLimit maxRequests windowMs key now st).1 ≠ RLOutcome.allowed) :
    (rateLimit maxRequests windowMs key now st).2 =
      cleanupState (now - windowMs) st := by
  by_cases hd : maxRequests ≤
      ((lookupEntry (cleanupState (now - windowMs) st) key).getD []).length
  · simp [rateLimit, hd]
  · exact absurd (by simp [rateLimit, hd]) h

/-- Witness for C6 amended at a concrete denied check. -/
theorem rateLimit_denied_frame_witness :
    (rateLimit 1 100 "a" 150 [("a", [100]), ("b", [40])]).1 ≠
      RLOutcome.allowed ∧
    (rateLimit 1 100 "a" 150 [("a", [100]), ("b", [40])]).2 =
      cleanupState (150 - 100) [("a", [100]), ("b", [40])] :=
  ⟨by decide,
   rateLimit_denied_frame 1 100 "a" 150 [("a", [100]), ("b", [40])] (by decide)⟩

theorem map_fun_const {α β : Type} (l : List α) (b : β) :
    l.map (fun _ => b) = List.replicate l.length b := by
  induction l with
  | nil => rfl
  | cons a rest ih => simp [List.replicate_succ, ih]

theorem runRateLimit_append (m : Nat) (W : Int) (l1 l2 : List (String × Int))
    (st : RLState) :
    runRateLimit m W (l1 ++ l2) st =
      ((runRateLimit m W l1 st).1 ++
        (runRateLimit m W l2 (runRateLimit m W l1 st).2).1,
       (runRateLimit m W l2 (runRateLimit m W l1 st).2).2) := by
  induction l1 generalizing st with
  | nil => simp [runRateLimit]
  | cons c rest ih => simp [runRateLimit, ih]

theorem cleanupState_singleState (w : Int) (k : String) (pre : List Int)
    (hkeep : ∀ s ∈ pre, w < s) :
    cleanupState w (singleState k pre) = singleState k pre := by
  by_cases hp : pre = []
  · simp [singleState, hp, cleanupState]
  · have hf : filterGt w pre = pre := filterGt_eq_self hkeep
    simp [singleState, hp, cleanupState_cons, hf, cleanupState]

theorem tsOf_singleState (k : String) (pre : List Int) :
    tsOf (singleState k pre) k = pre := by
  by_cases hp : pre = [] <;> simp [singleState, hp, tsOf, lookupEntry]

theorem setEntry_singleState (k : String) (pre v : List Int) (hv : v ≠ []) :
    setEntry (singleState k pre) k v = singleState k v := by
  by_cases hp : pre = [] <;> simp [singleState, hp, setEntry, hv]

theorem rateLimit_step_allowed (m : Nat) (W : Int) (k : String) (pre : List Int)
    (t : Int) (hlen : pre.length < m) (hkeep : ∀ s ∈ pre, t - W < s) :
    rateLimit m W k t (singleState k pre) =
      (RLOutcome.allowed, singleState k (pre ++ [t])) := by
  have hclean : cleanupState (t - W) (singleState k pre) = singleState k pre :=
    cleanupState_singleState _ _ _ hkeep
  have huser :
      (lookupEntry (cleanupState (t - W) (singleState k pre)) k).getD [] = pre := by
    rw [hclean]
    simpa [tsOf] using tsOf_singleState k pre
  have hm : ¬ (m ≤ pre.length) := by omega
  have hset : setEntry (cleanupState (t - W) (singleState k pre)) k (pre ++ [t]) =
      singleState k (pre ++ [t]) := by
    rw [hclean]
    exact setEntry_singleState k pre (pre ++ [t]) (by simp)
  simp [rateLimit, huser, hm, hset]

theorem runRateLimit_burst (m : Nat) (W : Int) (k : String) :
    ∀ (ts pre : List Int),
      pre.length + ts.length ≤ m →
      (∀ s ∈ pre ++ ts, ∀ t ∈ pre ++ ts, t - s < W) →
      runRateLimit m W (ts.map (fun t => (k, t))) (singleState k pre) =
        (ts.map (fun t => ((k, t), RLOutcome.allowed)),
         singleState k (pre ++ ts)) := by
  intro ts
  induction ts with
  | nil =>
    intro pre _ _
    simp [runRateLimit]
  | cons t rest ih =>
    intro pre hlen hspan
    simp only [List.length_cons] at hlen
    have hkeep : ∀ s ∈ pre, t - W < s := by
      intro s hs
      have := hspan s (List.mem_append_left _ hs) t
        (List.mem_append_right _ (List.mem_cons_self _ _))
      omega
    have hstep := rateLimit_step_allowed m W k pre t (by omega) hkeep
    have hra : (pre ++ [t]) ++ rest = pre ++ t :: rest := by simp
    have hrec := ih (pre ++ [t]) (by simp; omega) (by rw [hra]; exact hspan)
    simp [runRateLimit, hstep, hrec, hra]

theorem rateLimit_saturated_denied (m : Nat) (W : Int) (k : String)
    (pre : List Int) (t : Int) (hm : m ≤ pre.length)
    (hkeep : ∀ s ∈ pre, t - s < W) :
    rateLimit m W k t (singleState k pre) =
      (RLOutcome.denied 429 "Too many requests", singleState k pre) := by
  have hclean : cleanupState (t - W) (singleState k pre) = singleState k pre :=
    cleanupState_singleState _ _ _ (fun s hs => by have := hkeep s hs; omega)
  have huser :
      (lookupEntry (cleanupState (t - W) (singleState k pre)) k).getD [] = pre := by
    rw [hclean]
    simpa [tsOf] using tsOf_singleState k pre
  have h2 : (lookupEntry (singleState k pre) k).getD [] = pre := by
    simpa [tsOf] using tsOf_singleState k pre
  simp [rateLimit, hclean, h2, hm]

theorem rateLimit_after_window (m : Nat) (W : Int) (k : String) (pre : List Int)
    (t : Int) (hm : 1 ≤ m) (hold : ∀ s ∈ pre, W ≤ t - s) :
    rateLimit m W k t (singleState k pre) = (RLOutcome.allowed, [(k, [t])]) := by
  have hf : cleanupState (t - W) (singleState k pre) = [] := by
    by_cases hp : pre = []
    · simp [singleState, hp, cleanupState]
    · have hnil : filterGt (t - W) pre = [] :=
        filterGt_eq_nil (fun s hs => by have := hold s hs; omega)
      simp [singleState, hp, cleanupState_cons, hnil, cleanupState]
  have hm0 : ¬ (m ≤ 0) := by omega
  simp [rateLimit, hf, lookupEntry, hm0, setEntry]

/-- C1: from a fresh limiter instance, a burst of N+1 same-key checks whose
timestamps all lie inside one window has exactly the first N allowed
(`next()` called) and the last denied with 429 "Too many requests"; a
further same-key check made at least the window after every burst
timestamp is allowed again. -/
theorem rateLimit_burst_c1 (N : Nat) (W : Int) (k : String) (ts : List Int)
    (tN t' : Int) (hN : 1 ≤ N) (hlen : ts.length = N)
    (hspan : ∀ s ∈ ts ++ [tN], ∀ t ∈ ts ++ [tN], t - s < W)
    (hrest : ∀ s ∈ ts ++ [tN], W ≤ t' - s) :
    (runRateLimit N W (((ts ++ [tN]) ++ [t']).map (fun t => (k, t))) []).1.map
        (fun x => x.2) =
      List.replicate N RLOutcome.allowed ++
        [RLOutcome.denied 429 "Too many requests", RLOutcome.allowed] := by
  have hempty : singleState k ([] : List Int) = ([] : RLState) := by
    simp [singleState]
  have hspan1 : ∀ s ∈ ([] : List Int) ++ ts, ∀ t ∈ ([] : List Int) ++ ts,
      t - s < W := by
    intro s hs t ht
    simp only [List.nil_append] at hs ht
    exact hspan s (List.mem_append_left _ hs) t (List.mem_append_left _ ht)
  have hburst := runRateLimit_burst N W k ts [] (by simp [hlen]) hspan1
  rw [hempty] at hburst
  simp only [List.nil_append] at hburst
  have hden := rateLimit_saturated_denied N W k ts tN (by omega)
    (fun s hs => by
      have := hspan s (List.mem_append_left _ hs) tN
        (List.mem_append_right _ (List.mem_cons_self _ _))
      omega)
  have hrec := rateLimit_after_window N W k ts t' hN
    (fun s hs => hrest s (List.mem_append_left _ hs))
  rw [List.map_append, List.map_append]
  rw [runRateLimit_append, runRateLimit_append]
  rw [hburst]
  simp [runRateLimit, hden, hrec, List.map_map]
  rw [← hlen]
  exact map_fun_const ts RLOutcome.allowed

/-- Witness for C1 with N = 1, a two-check burst at time 0 and a revisit at
time 100 past the 100 ms window. -/
theorem rateLimit_burst_c1_witness :
    (runRateLimit 1 100 ((([0] ++ [0]) ++ [100]).map (fun t => ("ip", t))) []).1.map
        (fun x => x.2) =
      List.replicate 1 RLOutcome.allowed ++
        [RLOutcome.denied 429 "Too many requests", RLOutcome.allowed] :=
  rateLimit_burst_c1 1 100 "ip" [0] 0 100 (by decide) (by decide) (by decide)
    (by decide)

theorem rateLimit_eq (m : Nat) (W : Int) (k : String) (t : Int) (st : RLState) :
    rateLimit m W k t st =
      if m ≤ (tsOf (cleanupState (t - W) st) k).length then
        (RLOutcome.denied 429 "Too many requests", cleanupState (t - W) st)
      else
        (RLOutcome.allowed,
          setEntry (cleanupState (t - W) st) k
            (tsOf (cleanupState (t - W) st) k ++ [t])) := rfl

theorem runRateLimit_cons (m : Nat) (W : Int) (c : String × Int)
    (rest : List (String × Int)) (st : RLState) :
    runRateLimit m W (c :: rest) st =
      ((c, (rateLimit m W c.1 c.2 st).1) ::
        (runRateLimit m W rest (rateLimit m W c.1 c.2 st).2).1,
       (runRateLimit m W rest (rateLimit m W c.1 c.2 st).2).2) := rfl

theorem tsOf_setEntry_self (st : RLState) (k : String) (v : List Int) :
    tsOf (setEntry st k v) k = v := by
  simp [tsOf, lookupEntry_setEntry_self]

theorem tsOf_setEntry_ne (st : RLState) {k q : String} (v : List Int)
    (h : q ≠ k) : tsOf (setEntry st k v) q = tsOf st q := by
  simp [tsOf, lookupEntry_setEntry_ne st v h]

theorem tsOf_rateLimit_snd_ne (m : Nat) (W : Int) {ck B : String} (t : Int)
    {st : RLState} (hN : keysNodup st) (hne : B ≠ ck) :
    tsOf (rateLimit m W ck t st).2 B = filterGt (t - W) (tsOf st B) := by
  rw [rateLimit_eq]
  by_cases hd : m ≤ (tsOf (cleanupState (t - W) st) ck).length
  · rw [if_pos hd]
    exact tsOf_cleanupState _ hN B
  · rw [if_neg hd]
    rw [tsOf_setEntry_ne _ _ hne]
    exact tsOf_cleanupState _ hN B

theorem keysNodup_rateLimit_snd (m : Nat) (W : Int) (ck : String) (t : Int)
    {st : RLState} (hN : keysNodup st) : keysNodup (rateLimit m W ck t st).2 := by
  rw [rateLimit_eq]
  by_cases hd : m ≤ (tsOf (cleanupState (t - W) st) ck).length
  · rw [if_pos hd]
    exact keysNodup_cleanupState _ hN
  · rw [if_neg hd]
    exact keysNodup_setEntry _ _ (keysNodup_cleanupState _ hN)

theorem runRateLimit_proj (m : Nat) (W : Int) (B : String) :
    ∀ (tr : List (String × Int)) (T : Int) (Sf Sb : RLState),
      tr.Pairwise (fun a b => a.2 ≤ b.2) →
      (∀ x ∈ tr, T ≤ x.2) →
      keysNodup Sf → keysNodup Sb →
      (∀ w : Int, T - W ≤ w →
        filterGt w (tsOf Sf B) = filterGt w (tsOf Sb B)) →
      ((runRateLimit m W tr Sf).1.filter (fun x => decide (x.1.1 = B))).map
          (fun x => x.2) =
        ((runRateLimit m W (tr.filter (fun c => decide (c.1 = B))) Sb).1).map
          (fun x => x.2) := by
  intro tr
  induction tr with
  | nil =>
    intro T Sf Sb _ _ _ _ _
    simp [runRateLimit]
  | cons c rest ih =>
    intro T Sf Sb hpw hT hNf hNb hinv
    obtain ⟨ck, t⟩ := c
    have hTt : T ≤ t := hT (ck, t) (List.mem_cons_self _ _)
    have hcons := List.pairwise_cons.mp hpw
    have hrest_ge : ∀ x ∈ rest, t ≤ x.2 := hcons.1
    have hpw' := hcons.2
    by_cases hB : ck = B
    · subst hB
      have hu : tsOf (cleanupState (t - W) Sf) ck =
          tsOf (cleanupState (t - W) Sb) ck := by
        rw [tsOf_cleanupState _ hNf, tsOf_cleanupState _ hNb]
        exact hinv (t - W) (by omega)
      by_cases hd : m ≤ (tsOf (cleanupState (t - W) Sf) ck).length
      · have hd2 : m ≤ (tsOf (cleanupState (t - W) Sb) ck).length := by
          rw [← hu]; exact hd
        have hsf : rateLimit m W ck t Sf =
            (RLOutcome.denied 429 "Too many requests",
              cleanupState (t - W) Sf) := by
          rw [rateLimit_eq, if_pos hd]
        have hsb : rateLimit m W ck t Sb =
            (RLOutcome.denied 429 "Too many requests",
              cleanupState (t - W) Sb) := by
          rw [rateLimit_eq, if_pos hd2]
        have hrec := ih t (cleanupState (t - W) Sf) (cleanupState (t - W) Sb)
          hpw' hrest_ge (keysNodup_cleanupState _ hNf)
          (keysNodup_cleanupState _ hNb)
          (fun w hw => by
            rw [tsOf_cleanupState _ hNf, tsOf_cleanupState _ hNb,
              filterGt_filterGt hw, filterGt_filterGt hw]
            exact hinv w (by omega))
        have hfB : ((ck, t) :: rest).filter (fun c => decide (c.1 = ck)) =
            (ck, t) :: rest.filter (fun c => decide (c.1 = ck)) := by simp
        rw [runRateLimit_cons, hfB, runRateLimit_cons, hsf, hsb]
        simp [hrec]
      · have hd2 : ¬ m ≤ (tsOf (cleanupState (t - W) Sb) ck).length := by
          rw [← hu]; exact hd
        have hsf : rateLimit m W ck t Sf = (RLOutcome.allowed,
            setEntry (cleanupState (t - W) Sf) ck
              (tsOf (cleanupState (t - W) Sf) ck ++ [t])) := by
          rw [rateLimit_eq, if_neg hd]
        have hsb : rateLimit m W ck t Sb = (RLOutcome.allowed,
            setEntry (cleanupState (t - W) Sb) ck
              (tsOf (cleanupState (t - W) Sb) ck ++ [t])) := by
          rw [rateLimit_eq, if_neg hd2]
        have hrec := ih t
          (setEntry (cleanupState (t - W) Sf) ck
            (tsOf (cleanupState (t - W) Sf) ck ++ [t]))
          (setEntry (cleanupState (t - W) Sb) ck
            (tsOf (cleanupState (t - W) Sb) ck ++ [t]))
          hpw' hrest_ge
          (keysNodup_setEntry _ _ (keysNodup_cleanupState _ hNf))
          (keysNodup_setEntry _ _ (keysNodup_cleanupState _ hNb))
          (fun w hw => by
            rw [tsOf_setEntry_self, tsOf_setEntry_self, hu])
        have hfB : ((ck, t) :: rest).filter (fun c => decide (c.1 = ck)) =
            (ck, t) :: rest.filter (fun c => decide (c.1 = ck)) := by simp
        rw [runRateLimit_cons, hfB, runRateLimit_cons, hsf, hsb]
        simp [hrec]
    · have hBneq : B ≠ ck := fun h => hB h.symm
      have hrec := ih t (rateLimit m W ck t Sf).2 Sb hpw' hrest_ge
        (keysNodup_rateLimit_snd m W ck t hNf) hNb
        (fun w hw => by
          rw [tsOf_rateLimit_snd_ne m W t hNf hBneq, filterGt_filterGt hw]
          exact hinv w (by omega))
      have hfB : ((ck, t) :: rest).filter (fun c => decide (c.1 = B)) =
          rest.filter (fun c => decide (c.1 = B)) := by simp [hB]
      rw [runRateLimit_cons, hfB]
      simp [hB, hrec]

theorem runRateLimit_proj0 (m : Nat) (W : Int) (B : String)
    (tr : List (String × Int)) (hpw : tr.Pairwise (fun a b => a.2 ≤ b.2)) :
    ((runRateLimit m W tr []).1.filter (fun x => decide (x.1.1 = B))).map
        (fun x => x.2) =
      ((runRateLimit m W (tr.filter (fun c => decide (c.1 = B))) []).1).map
        (fun x => x.2) := by
  cases tr with
  | nil => simp [runRateLimit]
  | cons c rest =>
    exact runRateLimit_proj m W B (c :: rest) c.2 [] [] hpw
      (by
        intro x hx
        rcases List.mem_cons.mp hx with h | h
        · subst h
          exact le_refl _
        · exact (List.pairwise_cons.mp hpw).1 x h)
      (by simp [keysNodup, entryKeys])
      (by simp [keysNodup, entryKeys])
      (fun w _ => rfl)

/-- C7: with timestamps drawn from a monotone clock, the outcomes of key
B's admission checks depend only on B's own checks: two traces that agree
outside key A (A distinct from B) give identical outcome sequences for
key B, both run from a fresh limiter instance. -/
theorem rateLimit_key_independence (m : Nat) (W : Int) (A B : String)
    (tr1 tr2 : List (String × Int)) (hAB : A ≠ B)
    (h1 : tr1.Pairwise (fun a b => a.2 ≤ b.2))
    (h2 : tr2.Pairwise (fun a b => a.2 ≤ b.2))
    (h12 : tr1.filter (fun c => decide (c.1 ≠ A)) =
      tr2.filter (fun c => decide (c.1 ≠ A))) :
    rlOutcomesFor m W B tr1 = rlOutcomesFor m W B tr2 := by
  have key : ∀ tr : List (String × Int),
      tr.filter (fun c => decide (c.1 = B)) =
        (tr.filter (fun c => decide (c.1 ≠ A))).filter
          (fun c => decide (c.1 = B)) := by
    intro tr
    rw [List.filter_filter]
    apply List.filter_congr
    intro c _
    by_cases hc : c.1 = B
    · simp [hc]
      exact fun h => hAB h.symm
    · simp [hc]
  have e1 := runRateLimit_proj0 m W B tr1 h1
  have e2 := runRateLimit_proj0 m W B tr2 h2
  simp only [rlOutcomesFor]
  rw [e1, e2, key tr1, key tr2, h12]

/-- Witness for C7: saturating key "a" at time 0 does not change key "b"'s
outcome at time 1 compared with the run in which "a" never checks in. -/
theorem rateLimit_key_independence_witness :
    rlOutcomesFor 1 100 "b" [("a", 0), ("b", 1)] =
      rlOutcomesFor 1 100 "b" [("b", 1)] :=
  rateLimit_key_independence 1 100 "a" "b" [("a", 0), ("b", 1)] [("b", 1)]
    (by decide) (by decide) (by decide) (by decide)
